import Mathlib

/-!
Shallow embedding of the client-side state reconciliation engine of the
shopping-list application (source: src/App.tsx and the shared type
declarations).  The local React state (items, categories, logs, sets) is
modelled by explicit state passing; each `setX(prev => ...)` functional
update becomes a pure function on the corresponding list.  Remote push
calls (upsertItem / deleteItem on the datastore) are fire-and-forget
external effects and are not part of the local-state transition being
verified.  Nondeterministic fresh identifiers (Date.now() + random) are
passed in as explicit parameters.  Timestamps are naturals (milliseconds);
the JS normalisation `new Date(t).setHours(0,0,0,0)` is modelled by
truncation to the start of the day.
-/

namespace Pokupki

/-- CategoryDef from the shared type declarations: `{ id, name, emoji }`. -/
structure CategoryDef where
  id : String
  name : String
  emoji : String
deriving Repr, DecidableEq

/-- ProductItem from the shared type declarations:
`{ id, name, categoryId, completed, onList, purchaseCount, completedAt? }`.
The optional numeric timestamp `completedAt?` becomes `Option Nat`. -/
structure ProductItem where
  id : String
  name : String
  categoryId : String
  completed : Bool
  onList : Bool
  purchaseCount : Nat
  completedAt : Option Nat
deriving Repr, DecidableEq

/-- A row of the remote datastore as consumed by the sync callbacks
(fields used by App.tsx: id, text, is_bought, category, purchase_count;
`category` and `purchase_count` are nullable, mirrored by `Option`). -/
structure DbItem where
  id : String
  text : String
  is_bought : Bool
  category : Option String
  purchase_count : Option Nat
deriving Repr, DecidableEq

/-- One `{name, categoryId}` tuple of a purchase-log entry. -/
structure LogTuple where
  name : String
  categoryId : String
deriving Repr, DecidableEq

/-- PurchaseLog from the shared type declarations: `{ id, date, items }`. -/
structure PurchaseLog where
  id : String
  date : Nat
  items : List LogTuple
deriving Repr, DecidableEq

/-- One `{name, categoryName, emoji}` tuple of a shopping set. -/
structure SetTuple where
  name : String
  categoryName : String
  emoji : String
deriving Repr, DecidableEq

/-- ShoppingSet from the shared type declarations; `usageCount?` is
optional, mirrored by `Option Nat`. -/
structure ShoppingSet where
  id : String
  name : String
  emoji : String
  items : List SetTuple
  usageCount : Option Nat
deriving Repr, DecidableEq

/-- JS whitespace test for the characters relevant to `trim`. -/
def jsWs (c : Char) : Bool := c == ' ' || c == '\t' || c == '\n' || c == '\r'

/-- Model of `String.prototype.trim`, computed on the character list (the
core library trim does not reduce in the kernel). -/
def jsTrim (s : String) : String :=
  String.mk (((s.data.dropWhile jsWs).reverse.dropWhile jsWs).reverse)

/-- Model of `String.prototype.toLowerCase`, character by character (the
ASCII case mapping stands in for the JS Unicode one; every claim is
invariant in the choice of case mapping). -/
def jsToLower (s : String) : String := String.mk (s.data.map Char.toLower)

/-- Milliseconds per day. -/
def msPerDay : Nat := 86400000

/-- Model of `new Date(t).setHours(0, 0, 0, 0)`: truncate a millisecond
timestamp to the start of its calendar day. -/
def startOfDay (t : Nat) : Nat := t - t % msPerDay

/-- Model of `name.trim().charAt(0).toUpperCase() + name.trim().slice(1)`
(App.tsx line 459): trim, then capitalize the first character. -/
def capName (name : String) : String :=
  match (jsTrim name).data with
  | [] => ""
  | c :: rest => String.mk (c.toUpper :: rest)

/-- The fallback sentinel record with id dept_none, the Russian label and
the white-circle emoji, used by every category-normalisation site in
App.tsx. -/
def noneCategory : CategoryDef :=
  { id := "dept_none", name := "Без категории", emoji := "⚪" }

/-- finalizeAddItem (App.tsx lines 458-507), split into the render
snapshot the closure reads (`snapshot`, the `items` binding captured at
render time, used for the duplicate lookup) and the current store the
functional update is applied to (`cur`, the `prev` argument of
`setItems`).  In a quiescent single call both coincide; inside a batch
such as set expansion the lookup snapshot stays fixed while the updates
accumulate. -/
def finalizeAddItemRS (snapshot cur : List ProductItem) (freshId : String)
    (name : String) (categoryId : String) (onList : Bool) : List ProductItem :=
  let cap := capName name
  match snapshot.find? (fun i => jsToLower i.name == jsToLower cap) with
  | some existing =>
      cur.map (fun i =>
        if i.id == existing.id then
          { i with
            onList := onList || existing.onList,
            completed := if onList then false else i.completed,
            completedAt := if onList then none else i.completedAt,
            categoryId := if categoryId != "dept_none" then categoryId else i.categoryId }
        else i)
  | none =>
      { id := freshId,
        name := cap,
        categoryId := if categoryId == "" then "dept_none" else categoryId,
        completed := false,
        onList := onList,
        purchaseCount := 0,
        completedAt := none } :: cur

/-- finalizeAddItem as invoked from a quiescent state: lookup snapshot
and updated store are the same list. -/
def finalizeAddItem (items : List ProductItem) (freshId : String)
    (name : String) (categoryId : String) (onList : Bool) : List ProductItem :=
  finalizeAddItemRS items items freshId name categoryId onList

/-- The realtime INSERT callback (App.tsx lines 337-350): a no-op when an
item with the incoming id already exists, otherwise the mapped row is
appended (`onList` forced to true, nullable fields defaulted). -/
def onInsertItem (items : List ProductItem) (newItem : DbItem) : List ProductItem :=
  match items.find? (fun i => i.id == newItem.id) with
  | some _ => items
  | none =>
      items ++ [{ id := newItem.id,
                  name := newItem.text,
                  categoryId := newItem.category.getD "dept_none",
                  completed := newItem.is_bought,
                  onList := true,
                  purchaseCount := newItem.purchase_count.getD 0,
                  completedAt := none }]

/-- The realtime UPDATE callback (App.tsx lines 352-359): for the item
with the matching id, replace name, categoryId, completed and
purchaseCount from the notification; id, onList and completedAt are kept
by the record spread. -/
def onUpdateItem (items : List ProductItem) (u : DbItem) : List ProductItem :=
  items.map (fun i =>
    if i.id == u.id then
      { i with
        name := u.text,
        categoryId := u.category.getD "dept_none",
        completed := u.is_bought,
        purchaseCount := u.purchase_count.getD 0 }
    else i)

/-- The realtime DELETE callback (App.tsx lines 362-364). -/
def onDeleteItem (items : List ProductItem) (deletedId : String) : List ProductItem :=
  items.filter (fun i => i.id != deletedId)

/-- The initial remote load mapping (App.tsx lines 307-314): every remote
row is mirrored with `onList := true` and no `completedAt`. -/
def loadRemoteItem (ri : DbItem) : ProductItem :=
  { id := ri.id,
    name := ri.text,
    categoryId := ri.category.getD "dept_none",
    completed := ri.is_bought,
    onList := true,
    purchaseCount := ri.purchase_count.getD 0,
    completedAt := none }

/-- The per-item branch of toggleComplete (App.tsx lines 601-654) applied
to the item store: the matching item flips `completed`; on false→true it
gains one purchase and a completion stamp, on true→false the stamp is
cleared and the count is untouched. -/
def toggleCompleteItems (items : List ProductItem) (id : String) (now : Nat) :
    List ProductItem :=
  items.map (fun item =>
    if item.id == id then
      if item.completed then
        { item with completed := false, completedAt := none }
      else
        { item with completed := true,
                    purchaseCount := item.purchaseCount + 1,
                    completedAt := some now }
    else item)

/-- Remove the first tuple with the given name, if any. -/
def removeFirstByName : List LogTuple → String → List LogTuple
  | [], _ => []
  | t :: ts, n => if t.name == n then ts else t :: removeFirstByName ts n

/-- Model of `lastIndex := items.map(i => i.name).lastIndexOf(name)`
followed by `splice(lastIndex, 1)` when `lastIndex ≠ -1` (App.tsx lines
633-637 and 665-668): remove the last tuple with the given name, keeping
the list unchanged when no tuple matches. -/
def removeLastByName (ts : List LogTuple) (n : String) : List LogTuple :=
  (removeFirstByName ts.reverse n).reverse

/-- The `setLogs` functional update inside toggleComplete (App.tsx lines
621-642).  On completion the `{name, categoryId}` tuple is appended to
the entry whose date falls on the current day, a fresh entry being
prepended when none exists; on un-completion the last same-named tuple of
the current day is removed. -/
def toggleLogsOnComplete (logs : List PurchaseLog) (now : Nat)
    (newCompleted : Bool) (name categoryId : String) (freshLogId : String) :
    List PurchaseLog :=
  let today := startOfDay now
  match logs.find? (fun l => startOfDay l.date == today) with
  | some e =>
      if newCompleted then
        logs.map (fun l =>
          if l.id == e.id then { l with items := l.items ++ [⟨name, categoryId⟩] } else l)
      else
        if (e.items.map (fun t => t.name)).contains name then
          logs.map (fun l =>
            if l.id == e.id then { l with items := removeLastByName e.items name } else l)
        else logs
  | none =>
      if newCompleted then
        { id := freshLogId, date := now, items := [⟨name, categoryId⟩] } :: logs
      else logs

/-- toggleComplete (App.tsx lines 600-655) on the pair of item store and
purchase log.  The log update fires for the matching item, keyed by the
pre-toggle state of the item (the local `item` binding of the map callback). -/
def toggleComplete (items : List ProductItem) (logs : List PurchaseLog)
    (id : String) (now : Nat) (freshLogId : String) :
    List ProductItem × List PurchaseLog :=
  match items.find? (fun i => i.id == id) with
  | none => (items, logs)
  | some item =>
      (toggleCompleteItems items id now,
       toggleLogsOnComplete logs now (!item.completed) item.name item.categoryId freshLogId)

/-- undoCompletion (App.tsx lines 657-679): for the remembered
`lastCompletedItem`, remove the last same-named tuple from the current
log entry of the current day and reset the item to uncompleted with
`purchaseCount := max 0 (purchaseCount - 1)` (truncated subtraction). -/
def undoCompletion (items : List ProductItem) (logs : List PurchaseLog)
    (lastCompletedItem : Option String) (now : Nat) :
    List ProductItem × List PurchaseLog :=
  match lastCompletedItem with
  | none => (items, logs)
  | some lid =>
      let logs' :=
        match items.find? (fun i => i.id == lid) with
        | none => logs
        | some itemToUndo =>
            let today := startOfDay now
            match logs.find? (fun l => startOfDay l.date == today) with
            | some e =>
                if (e.items.map (fun t => t.name)).contains itemToUndo.name then
                  logs.map (fun l =>
                    if l.id == e.id then
                      { l with items := removeLastByName e.items itemToUndo.name }
                    else l)
                else logs
            | none => logs
      (items.map (fun it =>
        if it.id == lid then
          { it with completed := false, completedAt := none,
                    purchaseCount := it.purchaseCount - 1 }
        else it), logs')

/-- The daily rollover pass (App.tsx lines 397-405): items completed on a
prior calendar day are reset to `completed=false, onList=false,
completedAt=undefined`; everything else is untouched. -/
def dailyRollover (items : List ProductItem) (now : Nat) : List ProductItem :=
  let today := startOfDay now
  items.map (fun item =>
    match item.completedAt with
    | some t =>
        if item.completed && decide (startOfDay t < today) then
          { item with completed := false, onList := false, completedAt := none }
        else item
    | none => item)

/-- performItemDelete (App.tsx lines 761-775), item-store part. -/
def performItemDelete (items : List ProductItem) (id : String) : List ProductItem :=
  items.filter (fun i => i.id != id)

/-- The `reorderCats` helper shared by set expansion (App.tsx lines
516-520) and voice-parse acceptance (lines 1646-1650): non-sentinel
categories keep their order, the sentinel (or its fallback record) is
placed last. -/
def reorderCats (cats : List CategoryDef) : List CategoryDef :=
  let others := cats.filter (fun c => c.id != "dept_none")
  let no := (cats.find? (fun c => c.id == "dept_none")).getD noneCategory
  others ++ [no]

/-- saveCategory (App.tsx lines 800-831), category-registry part: a blank
name is a silent no-op; otherwise the sentinel and (on edit) the edited
category are filtered out, the new or edited record is appended, and the
sentinel follows it. -/
def saveCategory (cats : List CategoryDef) (editing : Option CategoryDef)
    (catName catEmoji freshId : String) : List CategoryDef :=
  if jsTrim catName == "" then cats
  else
    let others := cats.filter (fun c =>
      c.id != "dept_none" &&
        (match editing with
         | some e => c.id != e.id
         | none => true))
    let newCat : CategoryDef :=
      { id := match editing with
              | some e => e.id
              | none => freshId,
        name := catName,
        emoji := catEmoji }
    let systemNone := (cats.find? (fun c => c.id == "dept_none")).getD noneCategory
    others ++ [newCat, systemNone]

/-- performDeleteCategory (App.tsx lines 843-849): members of the deleted
category fall back to the sentinel, then the category row is removed. -/
def performDeleteCategory (items : List ProductItem) (cats : List CategoryDef)
    (id : String) : List ProductItem × List CategoryDef :=
  (items.map (fun item =>
     if item.categoryId == id then { item with categoryId := "dept_none" } else item),
   cats.filter (fun c => c.id != id))

/-- deleteCategory (App.tsx lines 833-841): deleting the sentinel is
refused; both the direct path and the confirmation-modal path end in
performDeleteCategory. -/
def deleteCategory (items : List ProductItem) (cats : List CategoryDef)
    (id : String) : List ProductItem × List CategoryDef :=
  if id == "dept_none" then (items, cats) else performDeleteCategory items cats id

/-- The category-creation step of the AI categorisation path
(App.tsx lines 570-576): the fresh category is inserted just before the
sentinel. -/
def aiCreateCategory (cats : List CategoryDef) (newCat : CategoryDef) :
    List CategoryDef :=
  let others := cats.filter (fun c => c.id != "dept_none")
  let no := (cats.find? (fun c => c.id == "dept_none")).getD noneCategory
  others ++ [newCat, no]

/-- The operations that write the Category Registry: explicit
create/edit (saveCategory), guarded delete, the reorder performed at the
end of set expansion and voice-parse acceptance over the categories
accumulated during the batch (`cats ++ added`), and implicit creation by
AI categorisation. -/
inductive CatOp where
  | save (editing : Option CategoryDef) (catName catEmoji freshId : String)
  | delete (id : String)
  | batchReorder (added : List CategoryDef)
  | aiCreate (newCat : CategoryDef)
deriving Repr

/-- Apply one category operation to the registry (the item-store side of
delete is irrelevant to the ordering invariant and elided here). -/
def applyCatOp (cats : List CategoryDef) : CatOp → List CategoryDef
  | .save e n em fid => saveCategory cats e n em fid
  | .delete id => if id == "dept_none" then cats else cats.filter (fun c => c.id != id)
  | .batchReorder added => reorderCats (cats ++ added)
  | .aiCreate nc => aiCreateCategory cats nc

/-- The sentinel-last ordering invariant: the listing ends with a
category whose id is the sentinel id. -/
def sentinelLast (cats : List CategoryDef) : Prop :=
  ∃ c, cats.getLast? = some c ∧ c.id = "dept_none"

/-- Accumulator of one set-expansion batch: the categories collected in
the local `updatedCats` array and the item store as updated so far. -/
structure ExpandState where
  updatedCats : List CategoryDef
  curItems : List ProductItem
deriving Repr

/-- One iteration of the `itemsToAdd.forEach` loop of
addSpecificItemsFromSet (App.tsx lines 522-534).  The history lookup and
the duplicate lookup inside finalizeAddItem both read the render
snapshot `snapshot`; item updates accumulate in `st.curItems` and
category creations in `st.updatedCats`. -/
def expandStep (snapshot : List ProductItem) (freshCatId freshItemId : String)
    (st : ExpandState) (t : SetTuple) : ExpandState :=
  match snapshot.find? (fun i => jsToLower i.name == jsToLower t.name) with
  | some hist =>
      { st with curItems :=
          finalizeAddItemRS snapshot st.curItems freshItemId t.name hist.categoryId true }
  | none =>
      match st.updatedCats.find? (fun c => jsToLower c.name == jsToLower t.categoryName) with
      | some cat =>
          { st with curItems :=
              finalizeAddItemRS snapshot st.curItems freshItemId t.name cat.id true }
      | none =>
          let cat : CategoryDef :=
            { id := freshCatId,
              name := t.categoryName,
              emoji := if t.emoji == "" then "📦" else t.emoji }
          { updatedCats := st.updatedCats ++ [cat],
            curItems :=
              finalizeAddItemRS snapshot st.curItems freshItemId t.name cat.id true }

/-- The `itemsToAdd.forEach` loop of addSpecificItemsFromSet, threading
the tuple index so that each iteration draws its own fresh ids. -/
def expandLoop (snapshot : List ProductItem) (freshCatId freshItemId : Nat → String) :
    Nat → List SetTuple → ExpandState → ExpandState
  | _, [], st => st
  | k, t :: ts, st =>
      expandLoop snapshot freshCatId freshItemId (k + 1) ts
        (expandStep snapshot (freshCatId k) (freshItemId k) st t)

/-- addSpecificItemsFromSet (App.tsx lines 513-542) on the triple of item
store, category registry and set registry.  Fresh category and item ids
are supplied per tuple index; after the loop the categories are
re-sorted sentinel-last and the usage counter of the expanded set grows by
one, whatever the size of the chosen subset. -/
def addSpecificItemsFromSet (items : List ProductItem) (cats : List CategoryDef)
    (sets : List ShoppingSet) (set : ShoppingSet) (itemsToAdd : List SetTuple)
    (freshCatId freshItemId : Nat → String) :
    List ProductItem × List CategoryDef × List ShoppingSet :=
  let stF := expandLoop items freshCatId freshItemId 0 itemsToAdd ⟨cats, items⟩
  (stF.curItems,
   reorderCats stF.updatedCats,
   sets.map (fun s =>
     if s.id == set.id then { s with usageCount := some (s.usageCount.getD 0 + 1) } else s))

/-- The local mutations of the item store (remote merge callbacks and the
initial load are deliberately not among them). -/
inductive LocalOp where
  | finalizeAdd (freshId name categoryId : String) (onList : Bool)
  | toggle (id : String) (now : Nat) (freshLogId : String)
  | undo (lastCompleted : Option String) (now : Nat)
  | rollover (now : Nat)
  | deleteItem (id : String)
  | deleteCat (id : String)
deriving Repr

/-- Apply one local mutation to the (items, logs) pair (category-registry
effects are irrelevant to the completion invariant and elided). -/
def applyLocalOp (st : List ProductItem × List PurchaseLog) :
    LocalOp → List ProductItem × List PurchaseLog
  | .finalizeAdd fid n cid ol => (finalizeAddItem st.1 fid n cid ol, st.2)
  | .toggle id now flid => toggleComplete st.1 st.2 id now flid
  | .undo lc now => undoCompletion st.1 st.2 lc now
  | .rollover now => (dailyRollover st.1 now, st.2)
  | .deleteItem id => (performItemDelete st.1 id, st.2)
  | .deleteCat id => ((performDeleteCategory st.1 [] id).1, st.2)

/-- The completion-timestamp invariant of one item: `completed=true` has
a timestamp, `completed=false` has none. -/
def completedAtInvariant (i : ProductItem) : Prop :=
  (i.completed = true → i.completedAt.isSome) ∧
  (i.completed = false → i.completedAt = none)

/-- The tuple list of the purchase-log entry of the current day (the entry
toggleComplete reads and writes), empty when no entry exists yet. -/
def todayLogItems (logs : List PurchaseLog) (now : Nat) : List LogTuple :=
  match logs.find? (fun l => startOfDay l.date == startOfDay now) with
  | some e => e.items
  | none => []

/-! Helper lemmas shared by the claim theorems. -/

/-- find? commutes with a map that does not change the predicate. -/
theorem find?_map_eq {α : Type} {f : α → α} {p : α → Bool}
    (hf : ∀ a, p (f a) = p a) (l : List α) :
    (l.map f).find? p = (l.find? p).map f := by
  rw [List.find?_map]
  have hpf : (p ∘ f) = p := funext fun a => hf a
  rw [hpf]

/-- The record obtained by the find-sentinel-or-fallback idiom always
carries the sentinel id. -/
theorem getD_sentinel_id (cats : List CategoryDef) :
    ((cats.find? (fun c => c.id == "dept_none")).getD noneCategory).id = "dept_none" := by
  cases hf : cats.find? (fun c => c.id == "dept_none") with
  | none => rfl
  | some c =>
      have := List.find?_some hf
      simpa [Option.getD] using of_decide_eq_true this

/-! ### C4: duplicate remote insert is a no-op -/

/-- C4: a remote insert notification whose id is already present locally
leaves the item store unchanged (no duplicate row, no field modified),
so repeated delivery of the same insert equals a single delivery. -/
theorem onInsert_duplicate_noop (items : List ProductItem) (n : DbItem)
    (h : (items.find? (fun i => i.id == n.id)).isSome) :
    onInsertItem items n = items := by
  rcases Option.isSome_iff_exists.mp h with ⟨x, hx⟩
  unfold onInsertItem
  rw [hx]

/-- Witness for C4 at a concrete store and notification. -/
theorem onInsert_duplicate_noop_witness :
    onInsertItem
        [{ id := "a1", name := "Молоко", categoryId := "dept_none",
           completed := false, onList := true, purchaseCount := 2, completedAt := none }]
        { id := "a1", text := "Молоко", is_bought := false,
          category := none, purchase_count := some 2 }
      = [{ id := "a1", name := "Молоко", categoryId := "dept_none",
           completed := false, onList := true, purchaseCount := 2, completedAt := none }] :=
  onInsert_duplicate_noop _ _ (by decide)

/-! ### C10: remote update frame conditions -/

/-- C10: the remote update merge keeps the id, the onList flag (and
completedAt) of every item unchanged, and for the matching id replaces
exactly name, categoryId, completed and purchaseCount by the fields of
the notification;
in particular buy-list membership (onList) of every item is untouched. -/
theorem onUpdate_frame (items : List ProductItem) (u : DbItem) :
    (onUpdateItem items u).map (fun i => i.id) = items.map (fun i => i.id) ∧
    (onUpdateItem items u).map (fun i => i.onList) = items.map (fun i => i.onList) ∧
    (onUpdateItem items u).map (fun i => i.completedAt) = items.map (fun i => i.completedAt) ∧
    ∀ i ∈ items, i.id = u.id →
      ∃ j ∈ onUpdateItem items u,
        j.id = i.id ∧ j.onList = i.onList ∧ j.completedAt = i.completedAt ∧
        j.name = u.text ∧ j.categoryId = u.category.getD "dept_none" ∧
        j.completed = u.is_bought ∧ j.purchaseCount = u.purchase_count.getD 0 := by
  refine ⟨?_, ?_, ?_, ?_⟩
  · unfold onUpdateItem
    rw [List.map_map]
    refine List.map_congr_left fun i _ => ?_
    by_cases hi : (i.id == u.id) = true <;> simp [Function.comp, hi]
  · unfold onUpdateItem
    rw [List.map_map]
    refine List.map_congr_left fun i _ => ?_
    by_cases hi : (i.id == u.id) = true <;> simp [Function.comp, hi]
  · unfold onUpdateItem
    rw [List.map_map]
    refine List.map_congr_left fun i _ => ?_
    by_cases hi : (i.id == u.id) = true <;> simp [Function.comp, hi]
  · intro i hi hid
    have hb : (i.id == u.id) = true := by simp [hid]
    refine ⟨_, List.mem_map_of_mem _ hi, ?_⟩
    simp [hb]

/-- Witness for C10 at a concrete store and update notification. -/
theorem onUpdate_frame_witness :
    ∃ j ∈ onUpdateItem
        [{ id := "a1", name := "Молоко", categoryId := "dept_none",
           completed := false, onList := true, purchaseCount := 2, completedAt := none }]
        { id := "a1", text := "Кефир", is_bought := true,
          category := some "dept_milk", purchase_count := some 3 },
      j.id = "a1" ∧ j.onList = true ∧ j.completedAt = none ∧
      j.name = "Кефир" ∧ j.categoryId = (some "dept_milk").getD "dept_none" ∧
      j.completed = true ∧ j.purchaseCount = (some 3).getD 0 :=
  (onUpdate_frame _ _).2.2.2 _ (List.mem_singleton_self _) rfl

/-! ### C7: daily rollover -/

/-- C7: the rollover pass resets every item completed on a strictly
earlier calendar day to not-completed, off-list and unstamped, and
leaves items completed on the current day as well as uncompleted items
unchanged. -/
theorem dailyRollover_spec (items : List ProductItem) (now : Nat) :
    (∀ i ∈ items, ∀ t, i.completed = true → i.completedAt = some t →
        startOfDay t < startOfDay now →
        { i with completed := false, onList := false, completedAt := none }
          ∈ dailyRollover items now) ∧
    (∀ i ∈ items, ∀ t, i.completed = true → i.completedAt = some t →
        startOfDay t = startOfDay now → i ∈ dailyRollover items now) ∧
    (∀ i ∈ items, i.completed = false → i ∈ dailyRollover items now) := by
  refine ⟨?_, ?_, ?_⟩
  · intro i hi t hc hca hlt
    have := List.mem_map_of_mem
      (fun item : ProductItem =>
        match item.completedAt with
        | some t =>
            if item.completed && decide (startOfDay t < startOfDay now) then
              { item with completed := false, onList := false, completedAt := none }
            else item
        | none => item) hi
    unfold dailyRollover
    simpa [hca, hc, hlt] using this
  · intro i hi t hc hca heq
    have := List.mem_map_of_mem
      (fun item : ProductItem =>
        match item.completedAt with
        | some t =>
            if item.completed && decide (startOfDay t < startOfDay now) then
              { item with completed := false, onList := false, completedAt := none }
            else item
        | none => item) hi
    unfold dailyRollover
    simpa [hca, hc, heq] using this
  · intro i hi hc
    have := List.mem_map_of_mem
      (fun item : ProductItem =>
        match item.completedAt with
        | some t =>
            if item.completed && decide (startOfDay t < startOfDay now) then
              { item with completed := false, onList := false, completedAt := none }
            else item
        | none => item) hi
    unfold dailyRollover
    cases hca : i.completedAt with
    | none => simpa [hca] using this
    | some t => simpa [hca, hc] using this

/-- Witness for C7: an item completed on the previous day is reset. -/
theorem dailyRollover_spec_witness :
    ({ id := "a1", name := "Хлеб", categoryId := "dept_none",
       completed := false, onList := false, purchaseCount := 1,
       completedAt := none } : ProductItem)
      ∈ dailyRollover
          [{ id := "a1", name := "Хлеб", categoryId := "dept_none",
             completed := true, onList := true, purchaseCount := 1,
             completedAt := some 1000 }] (msPerDay + 5) :=
  (dailyRollover_spec _ _).1 _ (List.mem_singleton_self _) 1000 rfl rfl (by decide)

/-! ### C1: merge-by-name in finalizeAddItem -/

/-- C1: when the normalized name of a finalize-add call matches an
existing item case-insensitively, no row is created (the store size is
unchanged) and the matched row ends with `onList = requested OR old`
(never turned off), its completion state cleared when the call requests
`onList = true`, and its category overwritten exactly when a
non-sentinel category id was supplied. -/
theorem finalizeAdd_merge (items : List ProductItem)
    (freshId name categoryId : String) (onList : Bool) (existing : ProductItem)
    (h : items.find? (fun i => jsToLower i.name == jsToLower (capName name)) = some existing) :
    (finalizeAddItem items freshId name categoryId onList).length = items.length ∧
    ∃ j ∈ finalizeAddItem items freshId name categoryId onList,
      j.id = existing.id ∧
      j.onList = (onList || existing.onList) ∧
      (existing.onList = true → j.onList = true) ∧
      (onList = true → j.completed = false ∧ j.completedAt = none) ∧
      (onList = false → j.completed = existing.completed ∧ j.completedAt = existing.completedAt) ∧
      j.categoryId = (if categoryId = "dept_none" then existing.categoryId else categoryId) := by
  have hmem : existing ∈ items := List.mem_of_find?_eq_some h
  have heq : finalizeAddItem items freshId name categoryId onList
      = items.map (fun i =>
          if i.id == existing.id then
            { i with
              onList := onList || existing.onList,
              completed := if onList then false else i.completed,
              completedAt := if onList then none else i.completedAt,
              categoryId := if categoryId != "dept_none" then categoryId else i.categoryId }
          else i) := by
    simp only [finalizeAddItem, finalizeAddItemRS]
    rw [h]
  rw [heq]
  constructor
  · exact List.length_map _ _
  · refine ⟨_, List.mem_map_of_mem _ hmem, ?_⟩
    have hb : (existing.id == existing.id) = true := by simp
    refine ⟨by simp [hb], by simp [hb], ?_, ?_, ?_, ?_⟩
    · intro hl; simp [hb, hl]
    · intro hl; simp [hb, hl]
    · intro hl; simp [hb, hl]
    · by_cases hcid : categoryId = "dept_none"
      · simp [hb, hcid]
      · have hb2 : (categoryId != "dept_none") = true := by simp [hcid]
        simp [hb, hcid, hb2]

/-- Witness for C1: re-adding a lowercase space-padded milk onto an
existing Milk row merges instead of duplicating. -/
theorem finalizeAdd_merge_witness :
    (finalizeAddItem
        [{ id := "a1", name := "Milk", categoryId := "dept_milk",
           completed := true, onList := false, purchaseCount := 4,
           completedAt := some 77 }]
        "fresh9" " milk" "dept_none" true).length = 1 ∧
    ∃ j ∈ finalizeAddItem
        [{ id := "a1", name := "Milk", categoryId := "dept_milk",
           completed := true, onList := false, purchaseCount := 4,
           completedAt := some 77 }]
        "fresh9" " milk" "dept_none" true,
      j.id = "a1" ∧ j.onList = (true || false) ∧
      (false = true → j.onList = true) ∧
      (true = true → j.completed = false ∧ j.completedAt = none) ∧
      (true = false → j.completed = true ∧ j.completedAt = some 77) ∧
      j.categoryId = (if "dept_none" = "dept_none" then "dept_milk" else "dept_none") :=
  finalizeAdd_merge _ "fresh9" " milk" "dept_none" true
    { id := "a1", name := "Milk", categoryId := "dept_milk",
      completed := true, onList := false, purchaseCount := 4,
      completedAt := some 77 } (by decide)

/-! ### C2: the sentinel category stays last -/

/-- A listing ending in a fixed element whose id is the sentinel id
satisfies the invariant. -/
theorem sentinelLast_concat (l : List CategoryDef) (c : CategoryDef)
    (hc : c.id = "dept_none") : sentinelLast (l ++ [c]) :=
  ⟨c, List.getLast?_concat _, hc⟩

/-- Filtering with a predicate that keeps the last element keeps it
last. -/
theorem getLast?_filter_of_pos {α : Type} (p : α → Bool) (l : List α) (c : α)
    (hl : l.getLast? = some c) (hp : p c = true) :
    (l.filter p).getLast? = some c := by
  induction l with
  | nil => simp at hl
  | cons a l ih =>
      cases l with
      | nil =>
          simp only [List.getLast?_singleton, Option.some.injEq] at hl
          subst hl
          simp [List.filter, hp]
      | cons b t =>
          rw [List.getLast?_cons_cons] at hl
          have ht := ih hl
          have hne : ((b :: t).filter p).getLast? = some c := ht
          by_cases ha : p a = true
          · rw [List.filter_cons_of_pos ha]
            cases hf : (b :: t).filter p with
            | nil => rw [hf] at hne; simp at hne
            | cons x xs =>
                rw [hf] at hne
                rw [List.getLast?_cons_cons]
                exact hne
          · rw [List.filter_cons_of_neg (by simpa using ha)]
            exact ht

/-- A listing ending in two fixed elements, the second carrying the
sentinel id, satisfies the invariant. -/
theorem sentinelLast_append_pair (l : List CategoryDef) (a c : CategoryDef)
    (hc : c.id = "dept_none") : sentinelLast (l ++ [a, c]) := by
  have he : l ++ [a, c] = (l ++ [a]) ++ [c] := by simp
  rw [he]
  exact sentinelLast_concat _ _ hc

/-- Every single category operation preserves the sentinel-last
invariant. -/
theorem applyCatOp_sentinelLast (cats : List CategoryDef) (op : CatOp)
    (h : sentinelLast cats) : sentinelLast (applyCatOp cats op) := by
  cases op with
  | save e n em fid =>
      show sentinelLast (saveCategory cats e n em fid)
      by_cases hn : (jsTrim n == "") = true
      · simpa [saveCategory, hn] using h
      · simp only [saveCategory, hn]
        simp only [Bool.false_eq_true, if_false]
        exact sentinelLast_append_pair _ _ _ (getD_sentinel_id cats)
  | delete id =>
      show sentinelLast
        (if id == "dept_none" then cats else cats.filter (fun c => c.id != id))
      by_cases hid : (id == "dept_none") = true
      · simpa [hid] using h
      · simp only [hid]
        simp only [Bool.false_eq_true, if_false]
        rcases h with ⟨c, hc, hcid⟩
        refine ⟨c, ?_, hcid⟩
        refine getLast?_filter_of_pos _ _ _ hc ?_
        have hne : ¬ (id = "dept_none") := fun he => hid (by simp [he])
        simp [hcid]
        intro he
        exact hne he.symm
  | batchReorder added =>
      show sentinelLast (reorderCats (cats ++ added))
      exact sentinelLast_concat _ _ (getD_sentinel_id _)
  | aiCreate nc =>
      show sentinelLast (aiCreateCategory cats nc)
      exact sentinelLast_append_pair _ _ _ (getD_sentinel_id cats)

/-- C2: from any registry state satisfying the sentinel-last invariant
(the sentinel category is present, as the last element), every sequence
of create, edit, delete, batch-reorder and implicit-AI-creation
operations keeps the sentinel category last. -/
theorem sentinel_always_last (cats : List CategoryDef) (h : sentinelLast cats)
    (ops : List CatOp) : sentinelLast (ops.foldl applyCatOp cats) := by
  induction ops generalizing cats with
  | nil => exact h
  | cons op ops ih => exact ih _ (applyCatOp_sentinelLast _ _ h)

/-- Witness for C2: a create followed by a delete keeps the sentinel
last. -/
theorem sentinel_always_last_witness :
    sentinelLast (List.foldl applyCatOp [noneCategory]
      [CatOp.save none "Овощи" "🥦" "dept_1", CatOp.delete "dept_1"]) :=
  sentinel_always_last [noneCategory] ⟨noneCategory, rfl, rfl⟩ _

/-! ### C3: purchase-count bookkeeping of toggle and undo -/

/-- The per-item toggle function keeps the id of every item. -/
theorem toggleFun_id_pres (id : String) (now : Nat) (a : ProductItem) :
    ((fun item : ProductItem =>
      if item.id == id then
        if item.completed then
          { item with completed := false, completedAt := none }
        else
          { item with completed := true,
                      purchaseCount := item.purchaseCount + 1,
                      completedAt := some now }
      else item) a).id = a.id := by
  by_cases hb : (a.id == id) = true
  · by_cases hcb : a.completed = true <;> simp [hb, hcb]
  · simp [hb]

/-- Looking an item up by id after a toggle finds the toggled version. -/
theorem toggleCompleteItems_find? (items : List ProductItem) (id : String) (now : Nat) :
    (toggleCompleteItems items id now).find? (fun x => x.id == id)
      = (items.find? (fun x => x.id == id)).map
          (fun item : ProductItem =>
            if item.id == id then
              if item.completed then
                { item with completed := false, completedAt := none }
              else
                { item with completed := true,
                            purchaseCount := item.purchaseCount + 1,
                            completedAt := some now }
            else item) := by
  refine find?_map_eq (fun a => ?_) items
  rw [toggleFun_id_pres id now a]

/-- C3: for a completed item, un-toggling keeps `purchaseCount`
unchanged (the bare true→false toggle never decrements) and re-toggling
then yields original+1; the explicit undo path decrements by exactly
one, with `Nat` subtraction supplying the floor at zero. -/
theorem toggle_untoggle_purchaseCount (items : List ProductItem)
    (logs : List PurchaseLog) (id : String) (now₁ now₂ : Nat)
    (flid₁ flid₂ : String) (i : ProductItem)
    (h : items.find? (fun x => x.id == id) = some i)
    (hc : i.completed = true) :
    (∃ j ∈ (toggleComplete items logs id now₁ flid₁).1,
        j.id = i.id ∧ j.completed = false ∧ j.purchaseCount = i.purchaseCount) ∧
    (∃ j ∈ (toggleComplete (toggleComplete items logs id now₁ flid₁).1
              (toggleComplete items logs id now₁ flid₁).2 id now₂ flid₂).1,
        j.id = i.id ∧ j.completed = true ∧
          j.purchaseCount = i.purchaseCount + 1) ∧
    (∃ j ∈ (undoCompletion items logs (some id) now₁).1,
        j.id = i.id ∧ j.purchaseCount = i.purchaseCount - 1 ∧
          (i.purchaseCount = 0 → j.purchaseCount = 0)) := by
  have hmem : i ∈ items := List.mem_of_find?_eq_some h
  have hidb : (i.id == id) = true := by simpa using List.find?_some h
  have hid : i.id = id := by simpa using hidb
  have p1 : (toggleComplete items logs id now₁ flid₁).1
      = toggleCompleteItems items id now₁ := by
    simp only [toggleComplete]
    rw [h]
  refine ⟨?_, ?_, ?_⟩
  · rw [p1]
    refine ⟨_, List.mem_map_of_mem _ hmem, ?_⟩
    simp [hid, hc]
  · have hf1 : (toggleCompleteItems items id now₁).find? (fun x => x.id == id)
        = some ({ i with completed := false, completedAt := none }) := by
      rw [toggleCompleteItems_find?, h]
      simp [hid, hc]
    have p2 : (toggleComplete (toggleComplete items logs id now₁ flid₁).1
          (toggleComplete items logs id now₁ flid₁).2 id now₂ flid₂).1
        = toggleCompleteItems (toggleCompleteItems items id now₁) id now₂ := by
      rw [p1]
      simp only [toggleComplete]
      rw [hf1]
    rw [p2]
    have hmem1 : ({ i with completed := false, completedAt := none } : ProductItem)
        ∈ toggleCompleteItems items id now₁ := by
      have := List.mem_map_of_mem
        (fun item : ProductItem =>
          if item.id == id then
            if item.completed then
              { item with completed := false, completedAt := none }
            else
              { item with completed := true,
                          purchaseCount := item.purchaseCount + 1,
                          completedAt := some now₁ }
          else item) hmem
      simpa [toggleCompleteItems, hid, hc] using this
    refine ⟨_, List.mem_map_of_mem _ hmem1, ?_⟩
    simp [hid]
  · refine ⟨_, List.mem_map_of_mem _ hmem, ?_⟩
    simp [hid]
    intro h0
    simp [h0]

/-- Witness for C3 at a concrete completed item with purchase count 3. -/
theorem toggle_untoggle_purchaseCount_witness :
    (∃ j ∈ (toggleComplete
        [{ id := "a1", name := "Bread", categoryId := "dept_none",
           completed := true, onList := true, purchaseCount := 3,
           completedAt := some 10 }] [] "a1" 20 "L1").1,
      j.id = "a1" ∧ j.completed = false ∧ j.purchaseCount = 3) ∧
    (∃ j ∈ (toggleComplete (toggleComplete
        [{ id := "a1", name := "Bread", categoryId := "dept_none",
           completed := true, onList := true, purchaseCount := 3,
           completedAt := some 10 }] [] "a1" 20 "L1").1
        (toggleComplete
        [{ id := "a1", name := "Bread", categoryId := "dept_none",
           completed := true, onList := true, purchaseCount := 3,
           completedAt := some 10 }] [] "a1" 20 "L1").2 "a1" 30 "L2").1,
      j.id = "a1" ∧ j.completed = true ∧ j.purchaseCount = 3 + 1) ∧
    (∃ j ∈ (undoCompletion
        [{ id := "a1", name := "Bread", categoryId := "dept_none",
           completed := true, onList := true, purchaseCount := 3,
           completedAt := some 10 }] [] (some "a1") 20).1,
      j.id = "a1" ∧ j.purchaseCount = 3 - 1 ∧ (3 = 0 → j.purchaseCount = 0)) :=
  toggle_untoggle_purchaseCount _ [] "a1" 20 30 "L1" "L2"
    { id := "a1", name := "Bread", categoryId := "dept_none",
      completed := true, onList := true, purchaseCount := 3,
      completedAt := some 10 } (by decide) rfl

/-! ### C6: purchase-log append and last-match removal -/

/-- Membership reading of the `map(...).lastIndexOf(name) !== -1` test. -/
theorem contains_name_iff (ts : List LogTuple) (n : String) :
    ((ts.map (fun t => t.name)).contains n) = true ↔ ∃ t ∈ ts, t.name = n := by
  rw [List.contains_iff_exists_mem_beq]
  constructor
  · rintro ⟨b, hb, hbeq⟩
    rcases List.mem_map.mp hb with ⟨t, ht, rfl⟩
    exact ⟨t, ht, (eq_of_beq hbeq).symm⟩
  · rintro ⟨t, ht, hteq⟩
    exact ⟨t.name, List.mem_map_of_mem _ ht, by simp [hteq]⟩

/-- removeFirstByName is the identity when no tuple carries the name. -/
theorem removeFirstByName_no_match (ts : List LogTuple) (n : String)
    (h : ∀ t ∈ ts, ¬ t.name = n) : removeFirstByName ts n = ts := by
  induction ts with
  | nil => rfl
  | cons t ts ih =>
      have hb : (t.name == n) = false := by
        simpa using h t (List.mem_cons_self t ts)
      simp only [removeFirstByName, hb]
      simp only [Bool.false_eq_true, if_false]
      rw [ih (fun x hx => h x (List.mem_cons_of_mem t hx))]

/-- removeFirstByName skips an unmatched block. -/
theorem removeFirstByName_append (a b : List LogTuple) (n cid : String)
    (h : ∀ t ∈ a, ¬ t.name = n) :
    removeFirstByName (a ++ (⟨n, cid⟩ : LogTuple) :: b) n = a ++ b := by
  induction a with
  | nil =>
      simp only [List.nil_append, removeFirstByName]
      have hb : ((⟨n, cid⟩ : LogTuple).name == n) = true := by simp
      simp [hb]
  | cons t a ih =>
      have hb : (t.name == n) = false := by
        simpa using h t (List.mem_cons_self t a)
      simp only [List.cons_append, removeFirstByName, hb]
      simp only [Bool.false_eq_true, if_false]
      exact congrArg (fun z => t :: z) (ih (fun x hx => h x (List.mem_cons_of_mem t hx)))

/-- removeLastByName is the identity when no tuple carries the name. -/
theorem removeLastByName_no_match (ts : List LogTuple) (n : String)
    (h : ∀ t ∈ ts, ¬ t.name = n) : removeLastByName ts n = ts := by
  unfold removeLastByName
  rw [removeFirstByName_no_match _ _ (fun t ht => h t (List.mem_reverse.mp ht))]
  exact List.reverse_reverse ts

/-- removeLastByName removes exactly the last matching tuple: tuples
before it, matching or not, and tuples after it (none of which match)
are kept. -/
theorem removeLastByName_spec (pre post : List LogTuple) (n cid : String)
    (h : ∀ t ∈ post, ¬ t.name = n) :
    removeLastByName (pre ++ (⟨n, cid⟩ : LogTuple) :: post) n = pre ++ post := by
  unfold removeLastByName
  have hrev : (pre ++ (⟨n, cid⟩ : LogTuple) :: post).reverse
      = post.reverse ++ (⟨n, cid⟩ : LogTuple) :: pre.reverse := by
    simp
  rw [hrev]
  rw [removeFirstByName_append _ _ _ _ (fun t ht => h t (List.mem_reverse.mp ht))]
  simp

/-- The log-entry update on completion appends exactly one tuple to the
tuple list of the current day, creating the day entry if absent. -/
theorem todayLogItems_complete (logs : List PurchaseLog) (now : Nat)
    (name cid flid : String) :
    todayLogItems (toggleLogsOnComplete logs now true name cid flid) now
      = todayLogItems logs now ++ [⟨name, cid⟩] := by
  cases hf : logs.find? (fun l => startOfDay l.date == startOfDay now) with
  | none =>
      have he : toggleLogsOnComplete logs now true name cid flid
          = { id := flid, date := now, items := [(⟨name, cid⟩ : LogTuple)] } :: logs := by
        simp only [toggleLogsOnComplete]
        rw [hf]
        simp
      have hfind : List.find? (fun l => startOfDay l.date == startOfDay now)
          ({ id := flid, date := now, items := [(⟨name, cid⟩ : LogTuple)] } :: logs)
          = some { id := flid, date := now, items := [(⟨name, cid⟩ : LogTuple)] } :=
        List.find?_cons_of_pos logs (by simp)
      unfold todayLogItems
      rw [he, hfind, hf]
      rfl
  | some e =>
      have he : toggleLogsOnComplete logs now true name cid flid
          = logs.map (fun l =>
              if l.id == e.id then { l with items := l.items ++ [(⟨name, cid⟩ : LogTuple)] } else l) := by
        simp only [toggleLogsOnComplete]
        rw [hf]
        simp
      have hgmap : (logs.map (fun l =>
          if l.id == e.id then { l with items := l.items ++ [(⟨name, cid⟩ : LogTuple)] } else l)).find?
            (fun l => startOfDay l.date == startOfDay now)
          = (logs.find? (fun l => startOfDay l.date == startOfDay now)).map
              (fun l => if l.id == e.id then { l with items := l.items ++ [(⟨name, cid⟩ : LogTuple)] } else l) := by
        refine find?_map_eq (fun l => ?_) logs
        by_cases hb : (l.id == e.id) = true <;> simp [hb]
      unfold todayLogItems
      rw [he, hgmap, hf]
      simp

/-- The log-entry update on un-completion removes the last same-named
tuple of the current day (a no-op when the day has no such tuple). -/
theorem todayLogItems_uncheck (logs : List PurchaseLog) (now : Nat)
    (name cid flid : String) :
    todayLogItems (toggleLogsOnComplete logs now false name cid flid) now
      = removeLastByName (todayLogItems logs now) name := by
  cases hf : logs.find? (fun l => startOfDay l.date == startOfDay now) with
  | none =>
      have he : toggleLogsOnComplete logs now false name cid flid = logs := by
        simp only [toggleLogsOnComplete]
        rw [hf]
        simp
      unfold todayLogItems
      rw [he, hf]
      rfl
  | some e =>
      by_cases hc : ((e.items.map (fun t => t.name)).contains name) = true
      · have he : toggleLogsOnComplete logs now false name cid flid
            = logs.map (fun l =>
                if l.id == e.id then { l with items := removeLastByName e.items name } else l) := by
          simp only [toggleLogsOnComplete]
          rw [hf]
          simp [hc]
          intro hno
          exfalso
          rcases (contains_name_iff e.items name).mp hc with ⟨t, ht, hteq⟩
          exact hno t ht hteq
        have hgmap : (logs.map (fun l =>
            if l.id == e.id then { l with items := removeLastByName e.items name } else l)).find?
              (fun l => startOfDay l.date == startOfDay now)
            = (logs.find? (fun l => startOfDay l.date == startOfDay now)).map
                (fun l => if l.id == e.id then { l with items := removeLastByName e.items name } else l) := by
          refine find?_map_eq (fun l => ?_) logs
          by_cases hb : (l.id == e.id) = true <;> simp [hb]
        unfold todayLogItems
        rw [he, hgmap, hf]
        simp
      · have he : toggleLogsOnComplete logs now false name cid flid = logs := by
          simp only [toggleLogsOnComplete]
          rw [hf]
          simp [hc]
          intro x hx hxeq
          exact absurd ((contains_name_iff e.items name).mpr ⟨x, hx, hxeq⟩) hc
        unfold todayLogItems
        rw [he, hf]
        refine (removeLastByName_no_match _ _ ?_).symm
        intro t ht hteq
        exact hc ((contains_name_iff e.items name).mpr ⟨t, ht, hteq⟩)

/-- C6: completing an item appends exactly one `{name, categoryId}`
tuple to the log entry of the current day (creating it when absent), so two
completions of one name on one day leave two tuples; un-toggling or
undoing removes exactly the last same-named tuple of the day, keeping
every earlier tuple. -/
theorem purchaseLog_bookkeeping (items : List ProductItem)
    (logs : List PurchaseLog) (id : String) (now : Nat) (flid : String)
    (i : ProductItem) (h : items.find? (fun x => x.id == id) = some i) :
    (i.completed = false →
      todayLogItems (toggleComplete items logs id now flid).2 now
        = todayLogItems logs now ++ [⟨i.name, i.categoryId⟩]) ∧
    (i.completed = true →
      todayLogItems (toggleComplete items logs id now flid).2 now
        = removeLastByName (todayLogItems logs now) i.name) ∧
    (todayLogItems (undoCompletion items logs (some id) now).2 now
        = removeLastByName (todayLogItems logs now) i.name) ∧
    (∀ pre post : List LogTuple, ∀ n cid : String, (∀ t ∈ post, ¬ t.name = n) →
      removeLastByName (pre ++ (⟨n, cid⟩ : LogTuple) :: post) n = pre ++ post) := by
  have p2 : (toggleComplete items logs id now flid).2
      = toggleLogsOnComplete logs now (!i.completed) i.name i.categoryId flid := by
    simp only [toggleComplete]
    rw [h]
  have pu : (undoCompletion items logs (some id) now).2
      = toggleLogsOnComplete logs now false i.name i.categoryId flid := by
    simp only [undoCompletion, toggleLogsOnComplete]
    rw [h]
    cases hf : logs.find? (fun l => startOfDay l.date == startOfDay now) with
    | none => rfl
    | some e => rfl
  refine ⟨?_, ?_, ?_, fun pre post n cid hp => removeLastByName_spec pre post n cid hp⟩
  · intro hc
    rw [p2, hc]
    exact todayLogItems_complete logs now i.name i.categoryId flid
  · intro hc
    rw [p2, hc]
    exact todayLogItems_uncheck logs now i.name i.categoryId flid
  · rw [pu]
    exact todayLogItems_uncheck logs now i.name i.categoryId flid

/-- Witness for C6: completing Bread with an empty log creates the day
entry with one tuple. -/
theorem purchaseLog_bookkeeping_witness :
    todayLogItems (toggleComplete
        [{ id := "a1", name := "Bread", categoryId := "dept_none",
           completed := false, onList := true, purchaseCount := 0,
           completedAt := none }] [] "a1" 50 "L1").2 50
      = todayLogItems [] 50 ++ [⟨"Bread", "dept_none"⟩] :=
  (purchaseLog_bookkeeping _ [] "a1" 50 "L1"
    { id := "a1", name := "Bread", categoryId := "dept_none",
      completed := false, onList := true, purchaseCount := 0,
      completedAt := none } (by decide)).1 rfl

/-! ### C5: the completed/completedAt invariant -/

/-- C5 counterexample: merging a remote insert notification with
`is_bought = true` for an id not yet present produces an item with
`completed = true` and no `completedAt`; the remote-merge path (the
mapped row never sets `completedAt`) violates the stated invariant. -/
theorem completedAt_invariant_remote_counterexample :
    ∃ i ∈ onInsertItem []
        { id := "r1", text := "Хлеб", is_bought := true,
          category := none, purchase_count := some 2 },
      i.completed = true ∧ i.completedAt = none := by
  refine ⟨{ id := "r1", name := "Хлеб", categoryId := "dept_none",
            completed := true, onList := true, purchaseCount := 2,
            completedAt := none }, ?_, rfl, rfl⟩
  simp [onInsertItem]

/-- Pointwise preservation lifted over List.map. -/
theorem inv_of_mem_map {f : ProductItem → ProductItem} {items : List ProductItem}
    (hf : ∀ i, completedAtInvariant i → completedAtInvariant (f i))
    (h : ∀ i ∈ items, completedAtInvariant i) :
    ∀ j ∈ items.map f, completedAtInvariant j := by
  intro j hj
  rcases List.mem_map.mp hj with ⟨i, hi, rfl⟩
  exact hf i (h i hi)

/-- One local mutation preserves the completion-timestamp invariant of
every item. -/
theorem applyLocalOp_completedAtInvariant (st : List ProductItem × List PurchaseLog)
    (op : LocalOp) (h : ∀ i ∈ st.1, completedAtInvariant i) :
    ∀ i ∈ (applyLocalOp st op).1, completedAtInvariant i := by
  cases op with
  | finalizeAdd fid n cid ol =>
      show ∀ i ∈ finalizeAddItem st.1 fid n cid ol, completedAtInvariant i
      have hsplit : finalizeAddItem st.1 fid n cid ol
          = finalizeAddItemRS st.1 st.1 fid n cid ol := rfl
      rw [hsplit]
      simp only [finalizeAddItemRS]
      cases hf : st.1.find? (fun i => jsToLower i.name == jsToLower (capName n)) with
      | some existing =>
          refine inv_of_mem_map (fun i hinv => ?_) h
          by_cases hb : (i.id == existing.id) = true
          · cases ol with
            | true => simp [hb, completedAtInvariant]
            | false =>
                simp only [hb, if_true]
                exact ⟨fun hc => by simpa using hinv.1 (by simpa using hc),
                       fun hc => by simpa using hinv.2 (by simpa using hc)⟩
          · simpa [hb] using hinv
      | none =>
          intro j hj
          rcases List.mem_cons.mp hj with hj | hj
          · subst hj
            exact ⟨fun hc => by simp at hc, fun _ => rfl⟩
          · exact h j hj
  | toggle id now flid =>
      show ∀ i ∈ (toggleComplete st.1 st.2 id now flid).1, completedAtInvariant i
      simp only [toggleComplete]
      cases hf : st.1.find? (fun i => i.id == id) with
      | none => exact h
      | some item =>
          refine inv_of_mem_map (fun i hinv => ?_) h
          by_cases hb : (i.id == id) = true
          · by_cases hcb : i.completed = true
            · simp [toggleCompleteItems, hb, hcb, completedAtInvariant]
            · simp [toggleCompleteItems, hb, hcb, completedAtInvariant]
          · simpa [toggleCompleteItems, hb] using hinv
  | undo lc now =>
      show ∀ i ∈ (undoCompletion st.1 st.2 lc now).1, completedAtInvariant i
      cases lc with
      | none => exact h
      | some lid =>
          simp only [undoCompletion]
          refine inv_of_mem_map (fun i hinv => ?_) h
          by_cases hb : (i.id == lid) = true
          · simp [hb, completedAtInvariant]
          · simpa [hb] using hinv
  | rollover now =>
      show ∀ i ∈ dailyRollover st.1 now, completedAtInvariant i
      unfold dailyRollover
      refine inv_of_mem_map (fun i hinv => ?_) h
      cases hca : i.completedAt with
      | none => simpa [hca] using hinv
      | some t =>
          by_cases hcond : (i.completed && decide (startOfDay t < startOfDay now)) = true
          · simp [hca, hcond, completedAtInvariant]
          · simpa [hca, hcond] using hinv
  | deleteItem id =>
      show ∀ i ∈ performItemDelete st.1 id, completedAtInvariant i
      intro j hj
      exact h j (List.mem_of_mem_filter hj)
  | deleteCat id =>
      show ∀ i ∈ (performDeleteCategory st.1 [] id).1, completedAtInvariant i
      simp only [performDeleteCategory]
      refine inv_of_mem_map (fun i hinv => ?_) h
      by_cases hb : (i.categoryId == id) = true
      · simpa [hb, completedAtInvariant] using hinv
      · simpa [hb] using hinv

/-- C5 (amended): every sequence of local mutations preserves the
invariant `completed=true ↔ completedAt set`; the remote merge paths do
not (see the counterexample) and are excluded. -/
theorem localOps_preserve_completedAtInvariant (items : List ProductItem)
    (logs : List PurchaseLog) (h : ∀ i ∈ items, completedAtInvariant i)
    (ops : List LocalOp) :
    ∀ i ∈ (ops.foldl applyLocalOp (items, logs)).1, completedAtInvariant i := by
  induction ops generalizing items logs with
  | nil => exact h
  | cons op ops ih =>
      have hstep := applyLocalOp_completedAtInvariant (items, logs) op h
      rw [List.foldl_cons]
      exact ih _ _ hstep

/-- Witness for the amended C5 theorem on a concrete store and a toggle
followed by a rollover: the rolled-over item satisfies the invariant. -/
theorem localOps_preserve_completedAtInvariant_witness :
    completedAtInvariant
      { id := "a1", name := "Milk", categoryId := "dept_none",
        completed := false, onList := false, purchaseCount := 1,
        completedAt := none } :=
  localOps_preserve_completedAtInvariant
    [{ id := "a1", name := "Milk", categoryId := "dept_none",
       completed := false, onList := true, purchaseCount := 0,
       completedAt := none }] []
    (by
      intro i hi
      rw [List.mem_singleton] at hi
      subst hi
      exact ⟨fun hc => by simp at hc, fun _ => rfl⟩)
    [LocalOp.toggle "a1" 700 "L1", LocalOp.rollover (msPerDay + 3)]
    { id := "a1", name := "Milk", categoryId := "dept_none",
      completed := false, onList := false, purchaseCount := 1,
      completedAt := none }
    (by decide)

/-! ### C9: position of an edited category -/

/-- C9 counterexample: editing the first of two non-sentinel categories
re-inserts it after the other one (just before the sentinel) instead of
keeping its relative position. -/
theorem saveCategory_edit_counterexample :
    (saveCategory
        [{ id := "dept_a", name := "A", emoji := "🍎" },
         { id := "dept_b", name := "B", emoji := "🍞" }, noneCategory]
        (some { id := "dept_a", name := "A", emoji := "🍎" })
        "A2" "🍎" "dept_f").map (fun c => c.id)
      = ["dept_b", "dept_a", "dept_none"] ∧
    ¬ ((saveCategory
        [{ id := "dept_a", name := "A", emoji := "🍎" },
         { id := "dept_b", name := "B", emoji := "🍞" }, noneCategory]
        (some { id := "dept_a", name := "A", emoji := "🍎" })
        "A2" "🍎" "dept_f").map (fun c => c.id)
      = ["dept_a", "dept_b", "dept_none"]) := by
  constructor <;> decide

/-- C9 (amended): with a non-blank name, editing a non-sentinel
category reuses its id but re-inserts the edited record as the last
non-sentinel category, immediately before the sentinel, while the other
non-sentinel categories keep their relative order; creating a category
likewise appends the fresh record as the last non-sentinel category,
immediately before the sentinel, keeping the relative order of all
existing non-sentinel categories. -/
theorem saveCategory_amended (cats : List CategoryDef) (e : CategoryDef)
    (catName catEmoji freshId : String) (h : ¬ (jsTrim catName == "") = true) :
    (∃ others s, saveCategory cats (some e) catName catEmoji freshId
        = others ++ [{ id := e.id, name := catName, emoji := catEmoji }, s] ∧
      others.Sublist cats ∧
      s.id = "dept_none" ∧
      (∀ c ∈ others, ¬ c.id = "dept_none" ∧ ¬ c.id = e.id) ∧
      (∀ c ∈ cats, ¬ c.id = "dept_none" → ¬ c.id = e.id → c ∈ others)) ∧
    (∃ others s, saveCategory cats none catName catEmoji freshId
        = others ++ [{ id := freshId, name := catName, emoji := catEmoji }, s] ∧
      others.Sublist cats ∧
      s.id = "dept_none" ∧
      (∀ c ∈ others, ¬ c.id = "dept_none") ∧
      (∀ c ∈ cats, ¬ c.id = "dept_none" → c ∈ others)) := by
  constructor
  · refine ⟨cats.filter (fun c => c.id != "dept_none" && c.id != e.id),
            (cats.find? (fun c => c.id == "dept_none")).getD noneCategory,
            ?_, List.filter_sublist _, getD_sentinel_id cats, ?_, ?_⟩
    · simp only [saveCategory]
      rw [if_neg h]
    · intro c hc
      have hp := List.of_mem_filter hc
      constructor
      · intro he
        simp [he] at hp
      · intro he
        simp [he] at hp
    · intro c hc h1 h2
      refine List.mem_filter.mpr ⟨hc, ?_⟩
      simp [h1, h2]
  · refine ⟨cats.filter (fun c => c.id != "dept_none" && true),
            (cats.find? (fun c => c.id == "dept_none")).getD noneCategory,
            ?_, List.filter_sublist _, getD_sentinel_id cats, ?_, ?_⟩
    · simp only [saveCategory]
      rw [if_neg h]
    · intro c hc
      have hp := List.of_mem_filter hc
      intro he
      simp [he] at hp
    · intro c hc h1
      refine List.mem_filter.mpr ⟨hc, ?_⟩
      simp [h1]

/-- Witness for the amended C9 theorem: a concrete two-category edit and
a concrete create on the same registry. -/
theorem saveCategory_amended_witness :
    (∃ others s, saveCategory
        [{ id := "dept_a", name := "A", emoji := "🍎" },
         { id := "dept_b", name := "B", emoji := "🍞" }, noneCategory]
        (some { id := "dept_a", name := "A", emoji := "🍎" })
        "A2" "🍎" "dept_f"
        = others ++ [{ id := "dept_a", name := "A2", emoji := "🍎" }, s] ∧
      others.Sublist
        [{ id := "dept_a", name := "A", emoji := "🍎" },
         { id := "dept_b", name := "B", emoji := "🍞" }, noneCategory] ∧
      s.id = "dept_none" ∧
      (∀ c ∈ others, ¬ c.id = "dept_none" ∧ ¬ c.id = "dept_a") ∧
      (∀ c ∈ [{ id := "dept_a", name := "A", emoji := "🍎" },
              { id := "dept_b", name := "B", emoji := "🍞" }, noneCategory],
        ¬ c.id = "dept_none" → ¬ c.id = "dept_a" → c ∈ others)) ∧
    (∃ others s, saveCategory
        [{ id := "dept_a", name := "A", emoji := "🍎" },
         { id := "dept_b", name := "B", emoji := "🍞" }, noneCategory]
        none "A2" "🍎" "dept_f"
        = others ++ [{ id := "dept_f", name := "A2", emoji := "🍎" }, s] ∧
      others.Sublist
        [{ id := "dept_a", name := "A", emoji := "🍎" },
         { id := "dept_b", name := "B", emoji := "🍞" }, noneCategory] ∧
      s.id = "dept_none" ∧
      (∀ c ∈ others, ¬ c.id = "dept_none") ∧
      (∀ c ∈ [{ id := "dept_a", name := "A", emoji := "🍎" },
              { id := "dept_b", name := "B", emoji := "🍞" }, noneCategory],
        ¬ c.id = "dept_none" → c ∈ others)) :=
  saveCategory_amended _ { id := "dept_a", name := "A", emoji := "🍎" }
    "A2" "🍎" "dept_f" (by decide)

/-! ### C8: set expansion -/

/-- The expansion loop processes an appended block after the first
block, with the tuple index advanced accordingly. -/
theorem expandLoop_append (snapshot : List ProductItem)
    (fc fi : Nat → String) (a : List SetTuple) :
    ∀ (b : List SetTuple) (k : Nat) (st : ExpandState),
      expandLoop snapshot fc fi k (a ++ b) st
        = expandLoop snapshot fc fi (k + a.length) b
            (expandLoop snapshot fc fi k a st) := by
  induction a with
  | nil => intro b k st; simp [expandLoop]
  | cons x a ih =>
      intro b k st
      simp only [List.cons_append, expandLoop, List.length_cons]
      rw [List.append_eq]
      rw [ih]
      rw [show k + (a.length + 1) = k + 1 + a.length from by omega]

/-- No category whose lowercased name equals a fixed string appears
during the loop unless one of the processed tuples carries it. -/
theorem expandLoop_cats_no_match (snapshot : List ProductItem)
    (fc fi : Nat → String) (X : String) :
    ∀ (ts : List SetTuple) (k : Nat) (st : ExpandState),
      (∀ c ∈ st.updatedCats, ¬ jsToLower c.name = X) →
      (∀ u ∈ ts, ¬ jsToLower u.categoryName = X) →
      ∀ c ∈ (expandLoop snapshot fc fi k ts st).updatedCats,
        ¬ jsToLower c.name = X := by
  intro ts
  induction ts with
  | nil => intro k st h1 _; exact h1
  | cons t ts ih =>
      intro k st h1 h2
      simp only [expandLoop]
      refine ih (k + 1) _ ?_ (fun u hu => h2 u (List.mem_cons_of_mem t hu))
      simp only [expandStep]
      cases hfs : snapshot.find? (fun i => jsToLower i.name == jsToLower t.name) with
      | some hist => exact h1
      | none =>
          cases hfc : st.updatedCats.find?
              (fun c => jsToLower c.name == jsToLower t.categoryName) with
          | some cat => exact h1
          | none =>
              intro c hc
              rcases List.mem_append.mp hc with hc | hc
              · exact h1 c hc
              · rw [List.mem_singleton] at hc
                subst hc
                exact h2 t (List.mem_cons_self t ts)

/-- Categories accumulated by the loop are never removed. -/
theorem expandLoop_cats_mono (snapshot : List ProductItem)
    (fc fi : Nat → String) :
    ∀ (ts : List SetTuple) (k : Nat) (st : ExpandState) (c : CategoryDef),
      c ∈ st.updatedCats → c ∈ (expandLoop snapshot fc fi k ts st).updatedCats := by
  intro ts
  induction ts with
  | nil => intro k st c hc; exact hc
  | cons t ts ih =>
      intro k st c hc
      simp only [expandLoop]
      refine ih (k + 1) _ c ?_
      simp only [expandStep]
      cases hfs : snapshot.find? (fun i => jsToLower i.name == jsToLower t.name) with
      | some hist => exact hc
      | none =>
          cases hfc : st.updatedCats.find?
              (fun c => jsToLower c.name == jsToLower t.categoryName) with
          | some cat => exact hc
          | none => exact List.mem_append_left _ hc

/-- A finalize-add batch step keeps any accumulated item whose id does
not occur in the render snapshot (merge updates only touch snapshot
ids; creations only prepend). -/
theorem finalizeAddItemRS_mem_fresh (snapshot cur : List ProductItem)
    (fid nm cid : String) (ol : Bool) (j : ProductItem)
    (hj : j ∈ cur) (hfresh : ∀ i ∈ snapshot, ¬ i.id = j.id) :
    j ∈ finalizeAddItemRS snapshot cur fid nm cid ol := by
  simp only [finalizeAddItemRS]
  cases hfs : snapshot.find? (fun i => jsToLower i.name == jsToLower (capName nm)) with
  | some existing =>
      have hmem := List.mem_of_find?_eq_some hfs
      have hb : (j.id == existing.id) = false := by
        have := hfresh existing hmem
        simp
        intro he
        exact (hfresh existing hmem) he.symm
      refine List.mem_map.mpr ⟨j, hj, ?_⟩
      simp [hb]
  | none => exact List.mem_cons_of_mem _ hj

/-- Items accumulated by the loop survive it when their id is fresh for
the snapshot. -/
theorem expandLoop_items_fresh (snapshot : List ProductItem)
    (fc fi : Nat → String) :
    ∀ (ts : List SetTuple) (k : Nat) (st : ExpandState) (j : ProductItem),
      j ∈ st.curItems → (∀ i ∈ snapshot, ¬ i.id = j.id) →
      j ∈ (expandLoop snapshot fc fi k ts st).curItems := by
  intro ts
  induction ts with
  | nil => intro k st j hj _; exact hj
  | cons t ts ih =>
      intro k st j hj hfresh
      simp only [expandLoop]
      refine ih (k + 1) _ j ?_ hfresh
      simp only [expandStep]
      cases hfs : snapshot.find? (fun i => jsToLower i.name == jsToLower t.name) with
      | some hist => exact finalizeAddItemRS_mem_fresh _ _ _ _ _ _ j hj hfresh
      | none =>
          cases hfc : st.updatedCats.find?
              (fun c => jsToLower c.name == jsToLower t.categoryName) with
          | some cat => exact finalizeAddItemRS_mem_fresh _ _ _ _ _ _ j hj hfresh
          | none => exact finalizeAddItemRS_mem_fresh _ _ _ _ _ _ j hj hfresh

/-- The loop step for a tuple matching no snapshot item and no
accumulated category: a category is created from the tuple and an item
carrying it is prepended. -/
theorem expandStep_creates (snapshot : List ProductItem) (fc fi : String)
    (st : ExpandState) (t : SetTuple)
    (hname : ∀ i ∈ snapshot, ¬ jsToLower i.name = jsToLower t.name)
    (hcat : ∀ c ∈ st.updatedCats, ¬ jsToLower c.name = jsToLower t.categoryName)
    (hcap : ∀ i ∈ snapshot, ¬ jsToLower i.name = jsToLower (capName t.name))
    (hfc : ¬ fc = "") :
    expandStep snapshot fc fi st t
      = { updatedCats := st.updatedCats ++
            [{ id := fc, name := t.categoryName,
               emoji := if t.emoji == "" then "📦" else t.emoji }],
          curItems :=
            { id := fi, name := capName t.name, categoryId := fc,
              completed := false, onList := true, purchaseCount := 0,
              completedAt := none } :: st.curItems } := by
  have hf1 : snapshot.find? (fun i => jsToLower i.name == jsToLower t.name) = none :=
    List.find?_eq_none.mpr (fun i hi => by simpa using hname i hi)
  have hf2 : st.updatedCats.find?
      (fun c => jsToLower c.name == jsToLower t.categoryName) = none :=
    List.find?_eq_none.mpr (fun c hc => by simpa using hcat c hc)
  have hf3 : snapshot.find? (fun i => jsToLower i.name == jsToLower (capName t.name)) = none :=
    List.find?_eq_none.mpr (fun i hi => by simpa using hcap i hi)
  have hb : (fc == "") = false := by simpa using hfc
  simp only [expandStep, finalizeAddItemRS]
  rw [hf1]
  rw [hf2]
  rw [hf3]
  simp [hb]

/-- C8: expanding any subset of the tuples of a set (the non-empty case
of the claim included) raises the usage count of that set by exactly
one, independently of the size and content of the chosen subset; and a
tuple whose (normalized) name matches no stored item and whose category
name matches no category — existing or created earlier in the same
batch — yields a fresh category named after the tuple, listed before
the sentinel, and a fresh item carrying that category. -/
theorem addSpecificItemsFromSet_spec (items : List ProductItem)
    (cats : List CategoryDef) (sets : List ShoppingSet) (set : ShoppingSet)
    (itemsToAdd : List SetTuple) (freshCatId freshItemId : Nat → String) :
    (∀ s ∈ sets, s.id = set.id →
        { s with usageCount := some (s.usageCount.getD 0 + 1) }
          ∈ (addSpecificItemsFromSet items cats sets set itemsToAdd
              freshCatId freshItemId).2.2) ∧
    (∀ (pre post : List SetTuple) (t : SetTuple),
      itemsToAdd = pre ++ t :: post →
      (∀ i ∈ items, ¬ jsToLower i.name = jsToLower t.name) →
      (∀ i ∈ items, ¬ jsToLower i.name = jsToLower (capName t.name)) →
      (∀ c ∈ cats, ¬ jsToLower c.name = jsToLower t.categoryName) →
      (∀ u ∈ pre, ¬ jsToLower u.categoryName = jsToLower t.categoryName) →
      ¬ freshCatId pre.length = "" →
      ¬ freshCatId pre.length = "dept_none" →
      (∀ i ∈ items, ¬ i.id = freshItemId pre.length) →
      (∃ others s,
          (addSpecificItemsFromSet items cats sets set itemsToAdd
              freshCatId freshItemId).2.1 = others ++ [s] ∧
          s.id = "dept_none" ∧
          ∃ c ∈ others, c.id = freshCatId pre.length ∧ c.name = t.categoryName) ∧
      (∃ j ∈ (addSpecificItemsFromSet items cats sets set itemsToAdd
            freshCatId freshItemId).1,
          j.id = freshItemId pre.length ∧ j.name = capName t.name ∧
          j.categoryId = freshCatId pre.length ∧ j.onList = true ∧
          j.completed = false ∧ j.purchaseCount = 0)) := by
  constructor
  · intro s hs hseq
    have hb : (s.id == set.id) = true := by simpa using hseq
    have hr3 : (addSpecificItemsFromSet items cats sets set itemsToAdd
          freshCatId freshItemId).2.2
        = sets.map (fun s : ShoppingSet =>
            if s.id == set.id then { s with usageCount := some (s.usageCount.getD 0 + 1) }
            else s) := rfl
    rw [hr3]
    have hmm := List.mem_map_of_mem
      (fun s : ShoppingSet =>
        if s.id == set.id then { s with usageCount := some (s.usageCount.getD 0 + 1) } else s) hs
    simp only [hb, eq_self_iff_true, if_true] at hmm
    exact hmm
  · intro pre post t hdec hname hcap hcat hpre hfc0 hfcn hfi
    subst hdec
    have hA : ∀ c ∈ (expandLoop items freshCatId freshItemId 0 pre
        ⟨cats, items⟩).updatedCats, ¬ jsToLower c.name = jsToLower t.categoryName :=
      expandLoop_cats_no_match items freshCatId freshItemId _ pre 0 ⟨cats, items⟩ hcat hpre
    have hstep := expandStep_creates items (freshCatId pre.length) (freshItemId pre.length)
      (expandLoop items freshCatId freshItemId 0 pre ⟨cats, items⟩) t hname hA hcap hfc0
    have hloop : expandLoop items freshCatId freshItemId 0 (pre ++ t :: post) ⟨cats, items⟩
        = expandLoop items freshCatId freshItemId (pre.length + 1) post
            (expandStep items (freshCatId pre.length) (freshItemId pre.length)
              (expandLoop items freshCatId freshItemId 0 pre ⟨cats, items⟩) t) := by
      rw [expandLoop_append]
      rw [show (0 + pre.length) = pre.length from by omega]
      rfl
    have hcmem : ({ id := freshCatId pre.length,
                    name := t.categoryName,
                    emoji := if t.emoji == "" then "📦" else t.emoji } : CategoryDef)
        ∈ (expandLoop items freshCatId freshItemId 0 (pre ++ t :: post)
            ⟨cats, items⟩).updatedCats := by
      rw [hloop]
      refine expandLoop_cats_mono items freshCatId freshItemId post (pre.length + 1) _ _ ?_
      rw [hstep]
      exact List.mem_append_right _ (List.mem_singleton_self _)
    have hjmem : ({ id := freshItemId pre.length,
                    name := capName t.name,
                    categoryId := freshCatId pre.length,
                    completed := false,
                    onList := true,
                    purchaseCount := 0,
                    completedAt := none } : ProductItem)
        ∈ (expandLoop items freshCatId freshItemId 0 (pre ++ t :: post)
            ⟨cats, items⟩).curItems := by
      rw [hloop]
      refine expandLoop_items_fresh items freshCatId freshItemId post (pre.length + 1) _ _ ?_ hfi
      rw [hstep]
      exact List.mem_cons_self _ _
    have hr2 : (addSpecificItemsFromSet items cats sets set (pre ++ t :: post)
          freshCatId freshItemId).2.1
        = reorderCats (expandLoop items freshCatId freshItemId 0 (pre ++ t :: post)
            ⟨cats, items⟩).updatedCats := rfl
    refine ⟨?_, ?_⟩
    · rw [hr2]
      simp only [reorderCats]
      refine ⟨_, _, rfl, getD_sentinel_id _, ?_⟩
      refine ⟨_, List.mem_filter.mpr ⟨hcmem, by simpa using hfcn⟩, rfl, rfl⟩
    · exact ⟨_, hjmem, rfl, rfl, rfl, rfl, rfl, rfl⟩

/-- A fixture tuple for the C8 witness. -/
def flourTuple : SetTuple := { name := "Flour", categoryName := "Baking", emoji := "🌾" }

/-- A fixture one-tuple set for the C8 witness. -/
def flourSet : ShoppingSet :=
  { id := "s1", name := "Выпечка", emoji := "🥐", items := [flourTuple], usageCount := none }

/-- Witness for C8: expanding the single-tuple Flour-in-Baking set with
no matching item or category raises the usage counter to one and
creates the category and the item. -/
theorem addSpecificItemsFromSet_spec_witness :
    ({ flourSet with usageCount := some (flourSet.usageCount.getD 0 + 1) }
      ∈ (addSpecificItemsFromSet [] [noneCategory] [flourSet] flourSet [flourTuple]
          (fun _ => "dept_77") (fun _ => "item_77")).2.2) ∧
    (∃ others s,
        (addSpecificItemsFromSet [] [noneCategory] [flourSet] flourSet [flourTuple]
            (fun _ => "dept_77") (fun _ => "item_77")).2.1 = others ++ [s] ∧
        s.id = "dept_none" ∧
        ∃ c ∈ others, c.id = "dept_77" ∧ c.name = "Baking") ∧
    (∃ j ∈ (addSpecificItemsFromSet [] [noneCategory] [flourSet] flourSet [flourTuple]
          (fun _ => "dept_77") (fun _ => "item_77")).1,
        j.id = "item_77" ∧ j.name = capName "Flour" ∧ j.categoryId = "dept_77" ∧
        j.onList = true ∧ j.completed = false ∧ j.purchaseCount = 0) :=
  ⟨(addSpecificItemsFromSet_spec [] [noneCategory] [flourSet] flourSet [flourTuple]
      (fun _ => "dept_77") (fun _ => "item_77")).1
      flourSet (List.mem_singleton_self _) rfl,
   (addSpecificItemsFromSet_spec [] [noneCategory] [flourSet] flourSet [flourTuple]
      (fun _ => "dept_77") (fun _ => "item_77")).2
      [] [] flourTuple rfl
      (by intro i hi; simp at hi)
      (by intro i hi; simp at hi)
      (by intro c hc; rw [List.mem_singleton] at hc; subst hc; decide)
      (by intro u hu; simp at hu)
      (by decide) (by decide)
      (by intro i hi; simp at hi)⟩

end Pokupki
